import Mathlib

/-!
Verification of `maximize_profit.py`: a shallow embedding of the profit
calculator, the `Datastore`/`Ticker`/`Sector` model and the aggregation,
reporting and export logic, together with proofs of the specified
properties.  Python dicts are modelled as association lists in insertion
order; Python's in-place `d[k] = v` is `setEntry`, membership tests and
reads are `lookupE`.  Exceptions (`AttributeError` on a `None` sector,
`KeyError` on a missing dataset key) are modelled with `Except String`.
-/

namespace MaximizeProfit

/-! ### Association lists (Python dict in insertion order) -/

/-- Keys of an association list, in insertion order (Python `dict.keys()`). -/
def keysOf {α : Type} (m : List (String × α)) : List String :=
  m.map Prod.fst

/-- Reading a key (Python `d[k]` / `k in d`): first matching entry. -/
def lookupE {α : Type} : List (String × α) → String → Option α
  | [], _ => none
  | p :: rest, k => if p.1 = k then some p.2 else lookupE rest k

/-- Writing a key (Python `d[k] = v`): replace in place if present,
append if absent. -/
def setEntry {α : Type} : List (String × α) → String → α → List (String × α)
  | [], k, v => [(k, v)]
  | p :: rest, k, v => if p.1 = k then (k, v) :: rest else p :: setEntry rest k v

/-! ### The profit calculator (`calculateProfit`, lines 12-23) -/

/-- One iteration of the Kadane loop: `currentMin = min(currentMin, price)`
then `currentMax = max(currentMax, price - currentMin)`.  The second
component is `None` while `currentMin` is still `float('inf')`. -/
def profitStep (s : Int × Option Int) (price : Int) : Int × Option Int :=
  let currentMin : Int :=
    match s.2 with
    | none => price
    | some m => min m price
  (max s.1 (price - currentMin), some currentMin)

/-- `calculateProfit(prices)`: `currentMax = 0`, `currentMin = inf`, one
pass over the prices, return `currentMax`. -/
def calculateProfit (prices : List Int) : Int :=
  (prices.foldl profitStep (0, none)).1

/-- The state of the Kadane loop after scanning a whole price list. -/
def runKadane (P : List Int) : Int × Option Int :=
  P.foldl profitStep (0, none)

/-- Spec-side definition, following the spec's words: the profits
`sell_price - buy_price` over all index pairs with buy index `<=` sell
index. -/
def pairProfits (P : List Int) : List Int :=
  (List.range P.length).flatMap (fun j =>
    ((List.range P.length).filter (fun i => decide (i ≤ j))).map (fun i =>
      P.getD j 0 - P.getD i 0))

/-- Spec-side definition, following the spec's words: the maximum of
`sell_price - buy_price` over all index pairs with buy index `<=` sell
index, floored at 0. -/
def specMaxProfit (P : List Int) : Int :=
  (pairProfits P).foldl max 0

/-! ### The entity model (`Sector`, `Ticker`, lines 176-203) -/

structure Sector where
  name : String
  tickerList : List String
  profits : Int
deriving DecidableEq

/-- `Sector.addTicker` (line 182): append to the roster.  Tickers are
referenced by name. -/
def Sector.addTicker (s : Sector) (tickerName : String) : Sector :=
  { s with tickerList := s.tickerList ++ [tickerName] }

/-- `Sector.addProfit` (line 185): `self.profits += profit`. -/
def Sector.addProfit (s : Sector) (profit : Int) : Sector :=
  { s with profits := s.profits + profit }

structure Ticker where
  name : String
  /-- The owning `Sector` object, referenced by its (immutable) name;
  `none` models Python's `None`. -/
  sector : Option String
  totalProfits : Int
  profits : List (String × Int)
  dataSets : List (String × List Int)
deriving DecidableEq

/-- `Ticker.addTotalProfit` (line 202): `self.totalProfits += profit`. -/
def Ticker.addTotalProfit (t : Ticker) (profit : Int) : Ticker :=
  { t with totalProfits := t.totalProfits + profit }

/-- `Ticker.addDataSet` (lines 196-200): a duplicate key only prints a
warning (second component `true`) and leaves the dict unchanged;
otherwise the prices are stored under the key. -/
def Ticker.addDataSet (t : Ticker) (dataSetName : String) (dataSetPrices : List Int) :
    Ticker × Bool :=
  if (lookupE t.dataSets dataSetName).isSome then (t, true)
  else ({ t with dataSets := t.dataSets ++ [(dataSetName, dataSetPrices)] }, false)

/-! ### The datastore (lines 25-174) -/

structure Datastore where
  tickers : List (String × Ticker)
  sectors : List (String × Sector)
  dataSetProfits : List (String × List (String × Int))
  dataSetNames : List String
deriving DecidableEq

/-- `Datastore.__init__` (lines 30-34). -/
def Datastore.empty : Datastore :=
  { tickers := [], sectors := [], dataSetProfits := [], dataSetNames := [] }

/-- One row of `loadMappingFromCSV` (lines 44-56): create the sector if
new, then create-and-register the ticker unless its name is already
mapped (in which case only a warning is printed). -/
def Datastore.processMappingRow (ds : Datastore) (tickerName sectorName : String) :
    Datastore :=
  let ds1 :=
    if (lookupE ds.sectors sectorName).isSome then ds
    else { ds with sectors :=
            ds.sectors ++ [(sectorName, { name := sectorName, tickerList := [], profits := 0 })] }
  if (lookupE ds1.tickers tickerName).isSome then ds1
  else
    let newTicker : Ticker :=
      { name := tickerName, sector := some sectorName, totalProfits := 0,
        profits := [], dataSets := [] }
    let ds2 := { ds1 with tickers := ds1.tickers ++ [(tickerName, newTicker)] }
    match lookupE ds2.sectors sectorName with
    | some sec => { ds2 with sectors := setEntry ds2.sectors sectorName (sec.addTicker tickerName) }
    | none => ds2

/-- Initialisation of one dataset in `loadDatafromCSV` (lines 73-74):
`self.dataSetProfits[strippedFileName] = dict()`. -/
def Datastore.initDataSet (ds : Datastore) (strippedFileName : String) : Datastore :=
  { ds with dataSetProfits := setEntry ds.dataSetProfits strippedFileName [] }

/-- One data row of `loadDatafromCSV` (lines 81-94): a known ticker gets
the prices via `addDataSet`; an unknown ticker is created with `None`
sector and the parsed prices are dropped (no `addDataSet` call in the
`else` branch of the source). -/
def Datastore.processDataRow (ds : Datastore) (strippedFileName : String)
    (tickerName : String) (stockPrices : List Int) : Datastore :=
  match lookupE ds.tickers tickerName with
  | some t =>
      { ds with tickers :=
          setEntry ds.tickers tickerName (t.addDataSet strippedFileName stockPrices).1 }
  | none =>
      { ds with tickers :=
          ds.tickers ++ [(tickerName,
            { name := tickerName, sector := none, totalProfits := 0,
              profits := [], dataSets := [] })] }

/-- Loading one whole dataset file of `loadDatafromCSV` (lines 69-98),
with the CSV rows already parsed to (ticker name, price list). -/
def Datastore.loadDataFile (ds : Datastore) (strippedFileName : String)
    (rows : List (String × List Int)) : Datastore :=
  rows.foldl (fun a r => a.processDataRow strippedFileName r.1 r.2)
    (ds.initDataSet strippedFileName)

/-- The body of `compileData`'s inner loop (lines 131-138) for one
`(dataSetKey, dataSet)` entry of one ticker.  `tickerObj.sector` being
`None` raises `AttributeError`; a dataset key missing from
`dataSetProfits` raises `KeyError`. -/
def compileStep (tickerKey : String) (acc : Ticker × Datastore)
    (entry : String × List Int) : Except String (Ticker × Datastore) :=
  let t := acc.1
  let ds := acc.2
  let maxProfit := calculateProfit entry.2
  let t2 : Ticker :=
    { t with profits := setEntry t.profits entry.1 maxProfit,
             totalProfits := t.totalProfits + maxProfit }
  match t2.sector with
  | none => Except.error "AttributeError"
  | some sectorName =>
    match lookupE ds.sectors sectorName with
    | none => Except.error "AttributeError"
    | some sec =>
      let ds1 := { ds with sectors := setEntry ds.sectors sectorName (sec.addProfit maxProfit) }
      match lookupE ds1.dataSetProfits entry.1 with
      | none => Except.error "KeyError"
      | some inner =>
        Except.ok (t2,
          { ds1 with dataSetProfits :=
              setEntry ds1.dataSetProfits entry.1 (setEntry inner tickerKey maxProfit) })

/-- One iteration of `compileData`'s outer loop (lines 130-138): run the
inner loop over the ticker's datasets, then the mutated ticker object is
the one stored in the dict. -/
def compileTicker (ds : Datastore) (kt : String × Ticker) : Except String Datastore := do
  let res ← kt.2.dataSets.foldlM (compileStep kt.1) (kt.2, ds)
  Except.ok { res.2 with tickers := setEntry res.2.tickers kt.1 res.1 }

/-- `Datastore.compileData` (lines 125-138). -/
def Datastore.compileData (ds : Datastore) : Except String Datastore :=
  ds.tickers.foldlM compileTicker ds

/-! ### Reporting (`displayMaximizeProfit`, lines 140-174) -/

/-- The `maximumTotalTickerProfit` fold of lines 158-160. -/
def Datastore.maximumTotalTickerProfit (ds : Datastore) : Int :=
  ds.tickers.foldl (fun m kt => max kt.2.totalProfits m) 0

/-- The `bestPerformingTickers` comprehension of line 161. -/
def Datastore.bestPerformingTickers (ds : Datastore) : List String :=
  (ds.tickers.filter (fun kt => kt.2.totalProfits == ds.maximumTotalTickerProfit)).map Prod.fst

/-- The `maximumSectorProfit` fold of lines 168-170. -/
def Datastore.maximumSectorProfit (ds : Datastore) : Int :=
  ds.sectors.foldl (fun m ks => max ks.2.profits m) 0

/-- The `bestPerformingSectors` comprehension of line 171. -/
def Datastore.bestPerformingSectors (ds : Datastore) : List String :=
  (ds.sectors.filter (fun ks => ks.2.profits == ds.maximumSectorProfit)).map Prod.fst

/-! ### Export (`exportDataToCSV`, lines 100-123) -/

/-- One sector row of the export (line 112). -/
def sectorRow (ks : String × Sector) : List String :=
  [ks.2.name, toString ks.2.profits]

/-- The sector section body of the export (lines 111-112). -/
def sectorRowsOut (ds : Datastore) : List (List String) :=
  ds.sectors.map sectorRow

/-- One ticker row of the export (line 119): the per-dataset profit cells
are the ticker's own `profits.values()` in their insertion order. -/
def tickerRow (t : Ticker) (sectorName : String) : List String :=
  [t.name, sectorName, toString t.totalProfits] ++ t.profits.map (fun p => toString p.2)

/-- The ticker rows of the export (lines 118-119), written one by one:
`tickerObj.sector.name` raises `AttributeError` on a `None` sector, which
aborts the loop; the rows already written stay in the file.  The boolean
is the success flag (`False` when the `except` branch of line 120 runs). -/
def tickerRowsOut : List (String × Ticker) → List (List String) × Bool
  | [] => ([], true)
  | kt :: rest =>
    match kt.2.sector with
    | none => ([], false)
    | some s =>
      let r := tickerRowsOut rest
      (tickerRow kt.2 s :: r.1, r.2)

/-- `Datastore.exportDataToCSV` (lines 100-123): the rows written to
`output_profits.csv` and the success flag. -/
def Datastore.exportDataToCSV (ds : Datastore) : List (List String) × Bool :=
  let t := tickerRowsOut ds.tickers
  ([["Sector", "Total Profit"]] ++ sectorRowsOut ds ++ [[]] ++
    [["Ticker", "Sector", "Total Profit"] ++ keysOf ds.dataSetProfits] ++ t.1, t.2)

/-! ### Derived notions used by the theorems -/

/-- Sum of the profits computed for a list of dataset entries. -/
def dataSetsProfit (L : List (String × List Int)) : Int :=
  (L.map (fun e => calculateProfit e.2)).sum

/-- Folding the per-dataset profits of a ticker into its `profits` dict,
in dataset order, as `compileData` does. -/
def profitsFold (L : List (String × List Int)) (m : List (String × Int)) :
    List (String × Int) :=
  L.foldl (fun acc e => setEntry acc e.1 (calculateProfit e.2)) m

/-- What one run of `compileData` does to a single ticker object. -/
def transformTicker (t : Ticker) : Ticker :=
  { t with totalProfits := t.totalProfits + dataSetsProfit t.dataSets,
           profits := profitsFold t.dataSets t.profits }

/-- Total contribution of a ticker list to the sector named `s`. -/
def sectorContrib (tickers : List (String × Ticker)) (s : String) : Int :=
  (tickers.map (fun kt =>
    if kt.2.sector = some s then dataSetsProfit kt.2.dataSets else 0)).sum

/-- Updates applied to the inner `dataSetProfits[dk]` dict by one ticker's
inner loop. -/
def innerUpd (k dk : String) (L : List (String × List Int))
    (inner : List (String × Int)) : List (String × Int) :=
  L.foldl (fun inn e => if e.1 = dk then setEntry inn k (calculateProfit e.2) else inn) inner

/-- Updates applied to the inner `dataSetProfits[dk]` dict by a whole
`compileData` run. -/
def dspFold (tickers : List (String × Ticker)) (dk : String)
    (inner : List (String × Int)) : List (String × Int) :=
  tickers.foldl (fun inn kt => innerUpd kt.1 dk kt.2.dataSets inn) inner

/-- Boolean check that a ticker can be compiled against `ds`: its sector
reference resolves, or (`None` sector) it has no datasets. -/
def tickerOk (ds : Datastore) (kt : String × Ticker) : Bool :=
  match kt.2.sector with
  | some s => (lookupE ds.sectors s).isSome
  | none => kt.2.dataSets.isEmpty

/-- A datastore state as produced by `loadMappingFromCSV` followed by
`loadDatafromCSV`, before any compilation: dict keys are unique, all
accumulators are zero / empty, sector references resolve (a ticker with
`None` sector has no datasets, which is what the loader produces), and
every dataset key of a ticker was initialised in `dataSetProfits`. -/
def FreshlyLoaded (ds : Datastore) : Prop :=
  (keysOf ds.tickers).Nodup ∧
  (keysOf ds.sectors).Nodup ∧
  (keysOf ds.dataSetProfits).Nodup ∧
  (∀ kt ∈ ds.tickers, (keysOf kt.2.dataSets).Nodup) ∧
  (∀ kt ∈ ds.tickers, kt.2.totalProfits = 0) ∧
  (∀ kt ∈ ds.tickers, kt.2.profits = []) ∧
  (∀ kt ∈ ds.tickers, tickerOk ds kt = true) ∧
  (∀ kt ∈ ds.tickers, ∀ e ∈ kt.2.dataSets, (lookupE ds.dataSetProfits e.1).isSome = true) ∧
  (∀ ks ∈ ds.sectors, ks.2.profits = 0) ∧
  (∀ p ∈ ds.dataSetProfits, p.2 = [])

/-! ### Concrete states used as inputs -/

/-- The spec's end-to-end example: mapping `AAA -> Tech`, `BBB -> Tech`,
one dataset `day1.csv` with rows `AAA,[1],[5],[3]` and `BBB,[8],[2],[9]`. -/
def exState : Datastore :=
  (((Datastore.empty.processMappingRow "AAA" "Tech").processMappingRow
      "BBB" "Tech").loadDataFile "day1.csv" [("AAA", [1, 5, 3]), ("BBB", [8, 2, 9])])

/-- The result of compiling `exState` (its success is proved below). -/
def exCompiled : Datastore :=
  match exState.compileData with
  | Except.ok d => d
  | Except.error _ => Datastore.empty

/-- A state whose ticker `XYZ` has an unset (`None`) sector but owns a
price sequence, registered through the public `addDataSet` operation. -/
def c2State : Datastore :=
  { tickers := [("XYZ",
      (Ticker.addDataSet
        { name := "XYZ", sector := none, totalProfits := 0, profits := [], dataSets := [] }
        "day1.csv" [1, 5]).1)],
    sectors := [],
    dataSetProfits := [("day1.csv", [])],
    dataSetNames := ["data/day1.csv"] }

/-- A loaded state with a mapped ticker `AAA` and a ticker `XYZ` that only
occurs in the price data (so it gets a `None` sector). -/
def c8State : Datastore :=
  (Datastore.empty.processMappingRow "AAA" "Tech").loadDataFile "day1.csv"
    [("AAA", [1, 5]), ("XYZ", [2, 9])]

/-- A loaded state with two datasets where ticker `BBB` is missing from
the first dataset. -/
def misState : Datastore :=
  ((((Datastore.empty.processMappingRow "AAA" "Tech").processMappingRow
      "BBB" "Tech").loadDataFile "day1.csv" [("AAA", [1, 5])]).loadDataFile
    "day2.csv" [("AAA", [3, 4]), ("BBB", [2, 9])])

instance (ds : Datastore) : Decidable (FreshlyLoaded ds) := by
  unfold FreshlyLoaded
  infer_instance

/-! ## Generic lemmas about `foldl max` -/

theorem le_foldl_max (l : List Int) (a : Int) : a ≤ l.foldl max a := by
  induction l generalizing a with
  | nil => exact le_refl a
  | cons x xs ih => exact le_trans (le_max_left a x) (ih (max a x))

theorem mem_le_foldl_max {x : Int} {l : List Int} (a : Int) (hx : x ∈ l) :
    x ≤ l.foldl max a := by
  induction l generalizing a with
  | nil => cases hx
  | cons y ys ih =>
    rcases List.mem_cons.mp hx with h | h
    · subst h
      exact le_trans (le_max_right a x) (le_foldl_max ys (max a x))
    · exact ih (max a y) h

theorem foldl_max_le {l : List Int} {a c : Int} (ha : a ≤ c)
    (h : ∀ x ∈ l, x ≤ c) : l.foldl max a ≤ c := by
  induction l generalizing a with
  | nil => exact ha
  | cons y ys ih =>
    exact ih (max_le ha (h y (List.mem_cons_self y ys)))
      (fun x hx => h x (List.mem_cons_of_mem y hx))

theorem foldl_max_eq_or_mem (l : List Int) (a : Int) :
    l.foldl max a = a ∨ l.foldl max a ∈ l := by
  induction l generalizing a with
  | nil => exact Or.inl rfl
  | cons y ys ih =>
    rcases ih (max a y) with h | h
    · rw [List.foldl_cons, h]
      rcases max_choice a y with h2 | h2
      · exact Or.inl h2
      · rw [h2]
        exact Or.inr (List.mem_cons_self y ys)
    · exact Or.inr (List.mem_cons_of_mem y h)

theorem foldl_max_flip (l : List Int) (a : Int) :
    l.foldl (fun m x => max x m) a = l.foldl max a := by
  induction l generalizing a with
  | nil => rfl
  | cons y ys ih => rw [List.foldl_cons, List.foldl_cons, max_comm y a, ih]

/-! ## The Kadane scan (claim C1) -/

theorem runKadane_append (P : List Int) (a : Int) :
    runKadane (P ++ [a]) = profitStep (runKadane P) a := by
  simp [runKadane, List.foldl_append]

theorem profitStep_eval_none {s : Int × Option Int} (h : s.2 = none) (a : Int) :
    profitStep s a = (max s.1 (a - a), some a) := by
  simp [profitStep, h]

theorem profitStep_eval_some {s : Int × Option Int} {m0 : Int} (h : s.2 = some m0)
    (a : Int) : profitStep s a = (max s.1 (a - min m0 a), some (min m0 a)) := by
  simp [profitStep, h]

theorem getD_concat (Q : List Int) (a : Int) : (Q ++ [a]).getD Q.length 0 = a := by
  rw [List.getD_append_right _ _ _ _ (le_refl _)]
  simp

theorem runKadane_snd_none {P : List Int} (h : (runKadane P).2 = none) : P = [] := by
  induction P using List.reverseRecOn with
  | nil => rfl
  | append_singleton Q a _ =>
    rw [runKadane_append] at h
    rcases hq : (runKadane Q).2 with _ | m0
    · rw [profitStep_eval_none hq] at h
      cases h
    · rw [profitStep_eval_some hq] at h
      cases h

theorem runKadane_snd_le {P : List Int} :
    ∀ m, (runKadane P).2 = some m → ∀ i, i < P.length → m ≤ P.getD i 0 := by
  induction P using List.reverseRecOn with
  | nil => intro m _ i hi; cases hi
  | append_singleton Q a ih =>
    intro m h i hi
    rw [runKadane_append] at h
    simp only [List.length_append, List.length_singleton] at hi
    rcases hq : (runKadane Q).2 with _ | m0
    · have hQ : Q = [] := runKadane_snd_none hq
      subst hQ
      rw [profitStep_eval_none hq] at h
      simp only [Option.some.injEq] at h
      have hi0 : i = 0 := by simp at hi; omega
      subst hi0
      simpa using h.ge
    · rw [profitStep_eval_some hq] at h
      simp only [Option.some.injEq] at h
      rcases Nat.lt_succ_iff_lt_or_eq.mp hi with hi2 | hi2
      · rw [List.getD_append _ _ _ _ hi2]
        exact le_trans (h ▸ min_le_left m0 a) (ih m0 hq i hi2)
      · subst hi2
        rw [getD_concat]
        exact h ▸ min_le_right m0 a

theorem runKadane_snd_mem {P : List Int} :
    ∀ m, (runKadane P).2 = some m → ∃ i, i < P.length ∧ P.getD i 0 = m := by
  induction P using List.reverseRecOn with
  | nil => intro m h; simp [runKadane] at h
  | append_singleton Q a ih =>
    intro m h
    rw [runKadane_append] at h
    rcases hq : (runKadane Q).2 with _ | m0
    · have hQ : Q = [] := runKadane_snd_none hq
      subst hQ
      rw [profitStep_eval_none hq] at h
      simp only [Option.some.injEq] at h
      exact ⟨0, by simp, by simpa using h⟩
    · rw [profitStep_eval_some hq] at h
      simp only [Option.some.injEq] at h
      rcases le_total m0 a with hle | hle
      · obtain ⟨i, hi, hgi⟩ := ih m0 hq
        refine ⟨i, by simp; omega, ?_⟩
        rw [List.getD_append _ _ _ _ hi, hgi, ← h, min_eq_left hle]
      · refine ⟨Q.length, by simp, ?_⟩
        rw [getD_concat, ← h, min_eq_right hle]

theorem foldl_profitStep_fst_mono (P : List Int) (s : Int × Option Int) :
    s.1 ≤ (P.foldl profitStep s).1 := by
  induction P generalizing s with
  | nil => exact le_refl _
  | cons x xs ih =>
    rw [List.foldl_cons]
    refine le_trans ?_ (ih (profitStep s x))
    rw [profitStep]
    exact le_max_left _ _

theorem calculateProfit_nonneg (P : List Int) : 0 ≤ calculateProfit P :=
  foldl_profitStep_fst_mono P (0, none)

theorem runKadane_fst_eq {Q : List Int} {a cm : Int}
    (hs : (runKadane (Q ++ [a])).2 = some cm) :
    (runKadane (Q ++ [a])).1 = max (runKadane Q).1 (a - cm) := by
  rw [runKadane_append] at hs ⊢
  rcases hq : (runKadane Q).2 with _ | m0
  · rw [profitStep_eval_none hq] at hs ⊢
    simp only [Option.some.injEq] at hs
    rw [hs]
  · rw [profitStep_eval_some hq] at hs ⊢
    simp only [Option.some.injEq] at hs
    rw [hs]

theorem runKadane_fst_ge_pair {P : List Int} :
    ∀ i j, i ≤ j → j < P.length → P.getD j 0 - P.getD i 0 ≤ (runKadane P).1 := by
  induction P using List.reverseRecOn with
  | nil => intro i j _ hj; cases hj
  | append_singleton Q a ih =>
    intro i j hij hj
    simp only [List.length_append, List.length_singleton] at hj
    rcases Nat.lt_succ_iff_lt_or_eq.mp hj with hj2 | hj2
    · have hi2 : i < Q.length := lt_of_le_of_lt hij hj2
      rw [List.getD_append _ _ _ _ hj2, List.getD_append _ _ _ _ hi2]
      refine le_trans (ih i j hij hj2) ?_
      rw [runKadane_append, profitStep]
      exact le_max_left _ _
    · subst hj2
      rcases hs : (runKadane (Q ++ [a])).2 with _ | cm
      · exact absurd (congrArg List.length (runKadane_snd_none hs)) (by simp)
      · have hcm : cm ≤ (Q ++ [a]).getD i 0 :=
          runKadane_snd_le cm hs i (by simp; omega)
        rw [getD_concat, runKadane_fst_eq hs]
        exact le_trans (sub_le_sub_left hcm a) (le_max_right _ _)

theorem runKadane_fst_cases (P : List Int) :
    (runKadane P).1 = 0 ∨
      ∃ i j, i ≤ j ∧ j < P.length ∧ (runKadane P).1 = P.getD j 0 - P.getD i 0 := by
  induction P using List.reverseRecOn with
  | nil => exact Or.inl rfl
  | append_singleton Q a ih =>
    rcases hs : (runKadane (Q ++ [a])).2 with _ | cm
    · exact absurd (congrArg List.length (runKadane_snd_none hs)) (by simp)
    · have hfst := runKadane_fst_eq hs
      rcases max_choice (runKadane Q).1 (a - cm) with hm | hm
      · rw [hfst, hm]
        rcases ih with h0 | ⟨i, j, hij, hj, he⟩
        · exact Or.inl h0
        · refine Or.inr ⟨i, j, hij, by simp; omega, ?_⟩
          rw [List.getD_append _ _ _ _ hj, List.getD_append _ _ _ _ (lt_of_le_of_lt hij hj)]
          exact he
      · obtain ⟨i, hi, hgi⟩ := runKadane_snd_mem cm hs
        refine Or.inr ⟨i, Q.length, by simp at hi; omega, by simp, ?_⟩
        rw [hfst, hm, getD_concat, hgi]

theorem mem_pairProfits {P : List Int} {x : Int} :
    x ∈ pairProfits P ↔
      ∃ i j, i ≤ j ∧ j < P.length ∧ x = P.getD j 0 - P.getD i 0 := by
  simp only [pairProfits, List.mem_flatMap, List.mem_map, List.mem_filter,
    List.mem_range, decide_eq_true_eq]
  constructor
  · rintro ⟨j, hj, i, ⟨hi, hij⟩, he⟩
    exact ⟨i, j, hij, hj, he.symm⟩
  · rintro ⟨i, j, hij, hj, he⟩
    exact ⟨j, hj, i, ⟨lt_of_le_of_lt hij hj, hij⟩, he.symm⟩

theorem calculateProfit_eq_spec (P : List Int) : calculateProfit P = specMaxProfit P := by
  apply le_antisymm
  · rcases runKadane_fst_cases P with h0 | ⟨i, j, hij, hj, he⟩
    · rw [calculateProfit, ← runKadane, h0]
      exact le_foldl_max _ 0
    · rw [calculateProfit, ← runKadane, he]
      exact mem_le_foldl_max 0 (mem_pairProfits.mpr ⟨i, j, hij, hj, rfl⟩)
  · refine foldl_max_le (calculateProfit_nonneg P) ?_
    intro x hx
    obtain ⟨i, j, hij, hj, he⟩ := mem_pairProfits.mp hx
    rw [he]
    exact runKadane_fst_ge_pair i j hij hj

/-- C1: `calculateProfit(P)` equals the maximum of `sell_price - buy_price`
over all index pairs with buy index `<=` sell index, floored at 0; it
returns 0 for the empty list, for any single-element list and for any
monotonically decreasing list, returns 5 for `[7,1,5,3,6,4]`, and its
result is always non-negative. -/
theorem calculateProfit_correct (P : List Int) :
    calculateProfit P = specMaxProfit P ∧
    0 ≤ calculateProfit P ∧
    calculateProfit [] = 0 ∧
    (∀ x : Int, calculateProfit [x] = 0) ∧
    calculateProfit [7, 1, 5, 3, 6, 4] = 5 ∧
    (P.Pairwise (fun a b => b ≤ a) → calculateProfit P = 0) := by
  refine ⟨calculateProfit_eq_spec P, calculateProfit_nonneg P, rfl, ?_, by decide, ?_⟩
  · intro x
    simp [calculateProfit, profitStep]
  · intro hdec
    refine le_antisymm ?_ (calculateProfit_nonneg P)
    rw [calculateProfit_eq_spec P, specMaxProfit]
    refine foldl_max_le (le_refl 0) ?_
    intro x hx
    obtain ⟨i, j, hij, hj, he⟩ := mem_pairProfits.mp hx
    have hi : i < P.length := lt_of_le_of_lt hij hj
    have hle : P.getD j 0 ≤ P.getD i 0 := by
      rcases Nat.lt_or_ge i j with hlt | hge
      · rw [List.getD_eq_getElem _ _ hj, List.getD_eq_getElem _ _ hi]
        exact List.pairwise_iff_getElem.mp hdec i j hi hj hlt
      · have : i = j := le_antisymm hij hge
        subst this
        exact le_refl _
    rw [he]
    omega

/-- Witness for C1 at concrete inputs, discharging the monotone-decrease
hypothesis at `[7,6,4,3,1]`. -/
theorem calculateProfit_correct_witness :
    calculateProfit [7, 6, 4, 3, 1] = specMaxProfit [7, 6, 4, 3, 1] ∧
    calculateProfit [7, 6, 4, 3, 1] = 0 :=
  ⟨(calculateProfit_correct [7, 6, 4, 3, 1]).1,
   (calculateProfit_correct [7, 6, 4, 3, 1]).2.2.2.2.2 (by decide)⟩

/-! ## Association-list lemmas -/

theorem lookupE_eq_none {α : Type} {m : List (String × α)} {k : String} :
    lookupE m k = none ↔ k ∉ keysOf m := by
  induction m with
  | nil => simp [lookupE, keysOf]
  | cons p rest ih =>
    rw [keysOf, List.map_cons]
    by_cases h : p.1 = k
    · rw [lookupE, if_pos h]
      constructor
      · intro hl
        cases hl
      · intro hm
        exact absurd (List.mem_cons.mpr (Or.inl h.symm)) hm
    · rw [lookupE, if_neg h, ih]
      constructor
      · intro hnr hm
        rcases List.mem_cons.mp hm with hm2 | hm2
        · exact h hm2.symm
        · exact hnr hm2
      · exact fun hnm hm => hnm (List.mem_cons.mpr (Or.inr hm))

theorem lookupE_isSome {α : Type} {m : List (String × α)} {k : String} :
    (lookupE m k).isSome = true ↔ k ∈ keysOf m := by
  constructor
  · intro h
    by_contra hm
    rw [lookupE_eq_none.mpr hm] at h
    cases h
  · intro h
    rcases hl : lookupE m k with _ | v
    · exact absurd h (lookupE_eq_none.mp hl)
    · rfl

theorem lookupE_mem {α : Type} {m : List (String × α)} {k : String} {v : α}
    (h : lookupE m k = some v) : (k, v) ∈ m := by
  induction m with
  | nil => cases h
  | cons p rest ih =>
    by_cases hp : p.1 = k
    · rw [lookupE, if_pos hp] at h
      injection h with h2
      have hpe : p = (k, v) := by
        obtain ⟨a, b⟩ := p
        simp only at hp h2
        rw [hp, h2]
      rw [hpe]
      exact List.mem_cons_self _ _
    · rw [lookupE, if_neg hp] at h
      exact List.mem_cons_of_mem p (ih h)

theorem lookupE_of_mem_nodup {α : Type} {m : List (String × α)} {k : String} {v : α}
    (hn : (keysOf m).Nodup) (h : (k, v) ∈ m) : lookupE m k = some v := by
  induction m with
  | nil => cases h
  | cons p rest ih =>
    rw [keysOf, List.map_cons, List.nodup_cons] at hn
    rcases List.mem_cons.mp h with h2 | h2
    · subst h2
      rw [lookupE, if_pos rfl]
    · have hk : k ∈ keysOf rest := List.mem_map.mpr ⟨(k, v), h2, rfl⟩
      have hp : p.1 ≠ k := fun he => hn.1 (he ▸ hk)
      rw [lookupE, if_neg hp]
      exact ih hn.2 h2

theorem lookupE_append_right {α : Type} {m1 : List (String × α)} {k : String}
    (h : k ∉ keysOf m1) (m2 : List (String × α)) :
    lookupE (m1 ++ m2) k = lookupE m2 k := by
  induction m1 with
  | nil => rfl
  | cons p rest ih =>
    rw [keysOf, List.map_cons, List.mem_cons] at h
    push_neg at h
    rw [List.cons_append, lookupE, if_neg (fun he => h.1 he.symm)]
    exact ih (fun h2 => h.2 h2)

theorem setEntry_append_of_notMem {α : Type} {m : List (String × α)} {k : String}
    (h : k ∉ keysOf m) (v : α) : setEntry m k v = m ++ [(k, v)] := by
  induction m with
  | nil => rfl
  | cons p rest ih =>
    rw [keysOf, List.map_cons, List.mem_cons] at h
    push_neg at h
    rw [setEntry, if_neg (fun he => h.1 he.symm), List.cons_append, ih h.2]

theorem keysOf_setEntry_mem {α : Type} {m : List (String × α)} {k : String} (v : α) :
    k ∈ keysOf m → keysOf (setEntry m k v) = keysOf m := by
  induction m with
  | nil => intro h; cases h
  | cons p rest ih =>
    intro h
    by_cases hp : p.1 = k
    · rw [setEntry, if_pos hp, keysOf, keysOf, List.map_cons, List.map_cons]
      simp only
      rw [hp]
    · rw [keysOf, List.map_cons, List.mem_cons] at h
      rcases h with h | h
      · exact absurd h.symm hp
      · rw [setEntry, if_neg hp, keysOf, keysOf, List.map_cons, List.map_cons]
        have := ih h
        rw [keysOf, keysOf] at this
        rw [this]

theorem keysOf_setEntry_notMem {α : Type} {m : List (String × α)} {k : String} (v : α)
    (h : k ∉ keysOf m) : keysOf (setEntry m k v) = keysOf m ++ [k] := by
  rw [setEntry_append_of_notMem h, keysOf, List.map_append]
  rfl

theorem lookupE_setEntry_self {α : Type} (m : List (String × α)) (k : String) (v : α) :
    lookupE (setEntry m k v) k = some v := by
  induction m with
  | nil => simp [setEntry, lookupE]
  | cons p rest ih =>
    by_cases h : p.1 = k
    · simp [setEntry, h, lookupE]
    · simp only [setEntry, if_neg h]
      rw [lookupE, if_neg h]
      exact ih

theorem lookupE_setEntry_ne {α : Type} (m : List (String × α)) {k k2 : String}
    (h : k2 ≠ k) (v : α) : lookupE (setEntry m k v) k2 = lookupE m k2 := by
  induction m with
  | nil =>
    have h2 : ¬(k = k2) := Ne.symm h
    simp [setEntry, lookupE, h2]
  | cons p rest ih =>
    by_cases hp : p.1 = k
    · simp only [setEntry, if_pos hp]
      rw [lookupE, if_neg (fun he => h he.symm), lookupE, if_neg (hp ▸ fun he => h he.symm)]
    · simp only [setEntry, if_neg hp]
      by_cases hp2 : p.1 = k2
      · rw [lookupE, if_pos hp2, lookupE, if_pos hp2]
      · rw [lookupE, if_neg hp2, lookupE, if_neg hp2]
        exact ih

theorem nodup_keysOf_setEntry {α : Type} {m : List (String × α)} (k : String) (v : α)
    (hn : (keysOf m).Nodup) : (keysOf (setEntry m k v)).Nodup := by
  by_cases h : k ∈ keysOf m
  · rw [keysOf_setEntry_mem v h]
    exact hn
  · rw [keysOf_setEntry_notMem v h]
    simpa [List.nodup_append] using ⟨hn, fun h2 => h h2⟩

theorem setEntry_eq_self {α : Type} {m : List (String × α)} {k : String} {v : α}
    (hn : (keysOf m).Nodup) (h : lookupE m k = some v) : setEntry m k v = m := by
  induction m with
  | nil => cases h
  | cons p rest ih =>
    rw [keysOf, List.map_cons, List.nodup_cons] at hn
    by_cases hp : p.1 = k
    · rw [lookupE, if_pos hp] at h
      cases h
      rw [setEntry, if_pos hp, ← hp]
    · rw [lookupE, if_neg hp] at h
      rw [setEntry, if_neg hp, ih hn.2 h]

theorem assoc_ext {α : Type} {m1 m2 : List (String × α)}
    (hk : keysOf m1 = keysOf m2) (hn : (keysOf m1).Nodup)
    (h : ∀ k, lookupE m1 k = lookupE m2 k) : m1 = m2 := by
  induction m1 generalizing m2 with
  | nil =>
    cases m2 with
    | nil => rfl
    | cons q rest2 => cases hk
  | cons p rest ih =>
    cases m2 with
    | nil => cases hk
    | cons q rest2 =>
      rw [keysOf, keysOf, List.map_cons, List.map_cons] at hk
      injection hk with hk1 hk2
      rw [keysOf, List.map_cons, List.nodup_cons] at hn
      have hv : p.2 = q.2 := by
        have := h p.1
        rw [lookupE, if_pos rfl, lookupE, if_pos hk1.symm] at this
        injection this
      have hrest : rest = rest2 := by
        refine ih hk2 hn.2 ?_
        intro k
        by_cases hp : k ∈ keysOf rest
        · have hne : p.1 ≠ k := fun he => hn.1 (he ▸ hp)
          have := h k
          rwa [lookupE, if_neg hne, lookupE, if_neg (hk1 ▸ hne)] at this
        · rw [lookupE_eq_none.mpr hp, Eq.comm, lookupE_eq_none, keysOf, ← hk2]
          rw [keysOf] at hp
          exact hp
      rw [hrest]
      obtain ⟨p1, p2⟩ := p
      obtain ⟨q1, q2⟩ := q
      simp only at hk1 hv
      rw [hk1, hv]

theorem keysOf_map_pair {β α : Type} (L : List (String × β)) (f : String × β → α) :
    keysOf (L.map (fun e => (e.1, f e))) = keysOf L := by
  simp [keysOf, List.map_map, Function.comp]

theorem lookupE_map_pair {β α : Type} {L : List (String × β)} {e : String × β}
    (hn : (keysOf L).Nodup) (he : e ∈ L) (f : String × β → α) :
    lookupE (L.map (fun x => (x.1, f x))) e.1 = some (f e) :=
  lookupE_of_mem_nodup (by rw [keysOf_map_pair]; exact hn)
    (List.mem_map.mpr ⟨e, he, rfl⟩)

/-! ## Lemmas about `profitsFold` -/

theorem profitsFold_append {L : List (String × List Int)} :
    ∀ m : List (String × Int), (∀ e ∈ L, e.1 ∉ keysOf m) → (keysOf L).Nodup →
      profitsFold L m = m ++ L.map (fun e => (e.1, calculateProfit e.2)) := by
  induction L with
  | nil => intro m _ _; simp [profitsFold]
  | cons e rest ih =>
    intro m hd hn
    rw [keysOf, List.map_cons, List.nodup_cons] at hn
    rw [profitsFold, List.foldl_cons,
      setEntry_append_of_notMem (hd e (List.mem_cons_self e rest)) _]
    have := ih (m ++ [(e.1, calculateProfit e.2)]) ?_ hn.2
    · rw [profitsFold] at this
      rw [this, List.map_cons, List.append_assoc]
      rfl
    · intro e2 he2
      rw [keysOf, List.map_append, List.mem_append]
      push_neg
      refine ⟨hd e2 (List.mem_cons_of_mem e he2), ?_⟩
      have : e2.1 ∈ keysOf rest := List.mem_map.mpr ⟨e2, he2, rfl⟩
      intro hc
      simp only [List.map_cons, List.map_nil, List.mem_singleton] at hc
      exact hn.1 (hc ▸ this)

theorem profitsFold_nil_eq_map {L : List (String × List Int)}
    (hn : (keysOf L).Nodup) :
    profitsFold L [] = L.map (fun e => (e.1, calculateProfit e.2)) := by
  have := profitsFold_append (L := L) [] (by intro e _; simp [keysOf]) hn
  simpa using this

theorem profitsFold_id {L : List (String × List Int)} :
    ∀ m : List (String × Int), (keysOf m).Nodup →
      (∀ e ∈ L, lookupE m e.1 = some (calculateProfit e.2)) →
      profitsFold L m = m := by
  induction L with
  | nil => intro m _ _; rfl
  | cons e rest ih =>
    intro m hn hl
    rw [profitsFold, List.foldl_cons, setEntry_eq_self hn (hl e (List.mem_cons_self e rest))]
    exact ih m hn (fun e2 he2 => hl e2 (List.mem_cons_of_mem e he2))

/-! ## Lemmas about `innerUpd` and `dspFold` -/

theorem innerUpd_notMem {k dk : String} {L : List (String × List Int)}
    (h : dk ∉ keysOf L) (inn : List (String × Int)) : innerUpd k dk L inn = inn := by
  induction L with
  | nil => rfl
  | cons e rest ih =>
    rw [keysOf, List.map_cons, List.mem_cons] at h
    push_neg at h
    rw [innerUpd, List.foldl_cons, if_neg (fun he => h.1 he.symm)]
    exact ih h.2

theorem innerUpd_eq_match {k dk : String} {L : List (String × List Int)}
    (hn : (keysOf L).Nodup) (inn : List (String × Int)) :
    innerUpd k dk L inn =
      match lookupE L dk with
      | some d => setEntry inn k (calculateProfit d)
      | none => inn := by
  induction L with
  | nil => rfl
  | cons e rest ih =>
    rw [keysOf, List.map_cons, List.nodup_cons] at hn
    by_cases he : e.1 = dk
    · rw [innerUpd, List.foldl_cons, if_pos he, lookupE, if_pos he]
      have hrest : dk ∉ keysOf rest := he ▸ hn.1
      exact innerUpd_notMem hrest _
    · rw [innerUpd, List.foldl_cons, if_neg he, lookupE, if_neg he]
      exact ih hn.2

theorem lookupE_innerUpd_ne {k k2 dk : String} (h : k2 ≠ k)
    (L : List (String × List Int)) :
    ∀ inn : List (String × Int), lookupE (innerUpd k dk L inn) k2 = lookupE inn k2 := by
  induction L with
  | nil => intro inn; rfl
  | cons e rest ih =>
    intro inn
    rw [innerUpd, List.foldl_cons]
    by_cases he : e.1 = dk
    · rw [if_pos he]
      have := ih (setEntry inn k (calculateProfit e.2))
      rw [innerUpd] at this
      rw [this, lookupE_setEntry_ne _ h]
    · rw [if_neg he]
      have := ih inn
      rw [innerUpd] at this
      rw [this]

theorem nodup_innerUpd {k dk : String} (L : List (String × List Int))
    {inn : List (String × Int)} (hn : (keysOf inn).Nodup) :
    (keysOf (innerUpd k dk L inn)).Nodup := by
  induction L generalizing inn with
  | nil => exact hn
  | cons e rest ih =>
    rw [innerUpd, List.foldl_cons]
    by_cases he : e.1 = dk
    · rw [if_pos he]
      exact ih (nodup_keysOf_setEntry _ _ hn)
    · rw [if_neg he]
      exact ih hn

theorem lookupE_dspFold_notMem (dk : String) {k2 : String} {T : List (String × Ticker)}
    (h : k2 ∉ keysOf T) :
    ∀ inn : List (String × Int), lookupE (dspFold T dk inn) k2 = lookupE inn k2 := by
  induction T with
  | nil => intro inn; rfl
  | cons kt rest ih =>
    intro inn
    rw [keysOf, List.map_cons, List.mem_cons] at h
    push_neg at h
    rw [dspFold, List.foldl_cons]
    have := ih h.2 (innerUpd kt.1 dk kt.2.dataSets inn)
    rw [dspFold] at this
    rw [this, lookupE_innerUpd_ne h.1 _ inn]

theorem nodup_dspFold {dk : String} (T : List (String × Ticker))
    {inn : List (String × Int)} (hn : (keysOf inn).Nodup) :
    (keysOf (dspFold T dk inn)).Nodup := by
  induction T generalizing inn with
  | nil => exact hn
  | cons kt rest ih =>
    rw [dspFold, List.foldl_cons]
    exact ih (nodup_innerUpd _ hn)

theorem lookupE_dspFold {dk : String} {T : List (String × Ticker)} :
    ∀ inn : List (String × Int), (keysOf T).Nodup →
      (∀ kt ∈ T, (keysOf kt.2.dataSets).Nodup) →
      ∀ kt ∈ T, ∀ d, lookupE kt.2.dataSets dk = some d →
        lookupE (dspFold T dk inn) kt.1 = some (calculateProfit d) := by
  induction T with
  | nil => intro inn _ _ kt h; cases h
  | cons kt0 rest ih =>
    intro inn hn hds kt hkt d hd
    rw [keysOf, List.map_cons, List.nodup_cons] at hn
    rw [dspFold, List.foldl_cons]
    rcases List.mem_cons.mp hkt with he | he
    · subst he
      have hnotin : kt.1 ∉ keysOf rest := hn.1
      have := lookupE_dspFold_notMem dk hnotin (innerUpd kt.1 dk kt.2.dataSets inn)
      rw [dspFold] at this
      rw [this, innerUpd_eq_match (hds kt (List.mem_cons_self kt rest)) inn, hd,
        lookupE_setEntry_self]
    · have := ih (innerUpd kt0.1 dk kt0.2.dataSets inn) hn.2
        (fun kt2 h2 => hds kt2 (List.mem_cons_of_mem kt0 h2)) kt he d hd
      rw [dspFold] at this
      rw [this]

theorem dspFold_id {dk : String} {T : List (String × Ticker)}
    {inn : List (String × Int)} (hnin : (keysOf inn).Nodup)
    (hds : ∀ kt ∈ T, (keysOf kt.2.dataSets).Nodup)
    (hl : ∀ kt ∈ T, ∀ d, lookupE kt.2.dataSets dk = some d →
      lookupE inn kt.1 = some (calculateProfit d)) :
    dspFold T dk inn = inn := by
  induction T with
  | nil => rfl
  | cons kt rest ih =>
    rw [dspFold, List.foldl_cons,
      innerUpd_eq_match (hds kt (List.mem_cons_self kt rest)) inn]
    have hstep :
        (match lookupE kt.2.dataSets dk with
          | some d => setEntry inn kt.1 (calculateProfit d)
          | none => inn) = inn := by
      rcases hd : lookupE kt.2.dataSets dk with _ | d
      · rfl
      · exact setEntry_eq_self hnin (hl kt (List.mem_cons_self kt rest) d hd)
    rw [hstep]
    exact ih (fun kt2 h2 => hds kt2 (List.mem_cons_of_mem kt h2))
      (fun kt2 h2 => hl kt2 (List.mem_cons_of_mem kt h2))

/-! ## A fold of `setEntry` writebacks over the ticker dict itself -/

theorem setEntry_append_left {α : Type} {A : List (String × α)} {k : String}
    (hA : k ∉ keysOf A) (B : List (String × α)) (v : α) :
    setEntry (A ++ B) k v = A ++ setEntry B k v := by
  induction A with
  | nil => rfl
  | cons p restA ih =>
    rw [keysOf, List.map_cons, List.mem_cons] at hA
    push_neg at hA
    rw [List.cons_append, setEntry, if_neg (fun he => hA.1 he.symm), ih hA.2,
      List.cons_append]

theorem foldl_setEntry_map {α : Type} (g : String × α → α) :
    ∀ (L A : List (String × α)), (∀ k ∈ keysOf L, k ∉ keysOf A) → (keysOf L).Nodup →
      L.foldl (fun ts kt => setEntry ts kt.1 (g kt)) (A ++ L) =
        A ++ L.map (fun kt => (kt.1, g kt)) := by
  intro L
  induction L with
  | nil => intro A _ _; simp
  | cons kt rest ih =>
    intro A hd hn
    rw [keysOf, List.map_cons, List.nodup_cons] at hn
    have hA : kt.1 ∉ keysOf A :=
      hd kt.1 (by rw [keysOf, List.map_cons]; exact List.mem_cons_self _ _)
    have hset : setEntry (A ++ kt :: rest) kt.1 (g kt) =
        (A ++ [(kt.1, g kt)]) ++ rest := by
      rw [setEntry_append_left hA, setEntry, if_pos rfl, List.append_assoc,
        List.singleton_append]
    rw [List.foldl_cons, hset]
    have hih := ih (A ++ [(kt.1, g kt)]) ?_ hn.2
    · rw [hih, List.append_assoc, List.singleton_append, List.map_cons]
    · intro k hk
      rw [keysOf, List.map_append, List.mem_append]
      push_neg
      constructor
      · exact fun hc =>
          hd k (by rw [keysOf, List.map_cons]; exact List.mem_cons_of_mem _ hk) hc
      · intro hc
        simp only [keysOf, List.map_cons, List.map_nil, List.mem_singleton] at hc
        exact hn.1 (hc ▸ hk)

/-- Folding the writebacks of one `compileData` run over the ticker dict it
iterates: every entry is replaced in place. -/
theorem foldl_setEntry_self {α : Type} (g : String × α → α) (L : List (String × α))
    (hn : (keysOf L).Nodup) :
    L.foldl (fun ts kt => setEntry ts kt.1 (g kt)) L = L.map (fun kt => (kt.1, g kt)) := by
  have := foldl_setEntry_map g L [] (by intro k _; simp [keysOf]) hn
  simpa using this

/-! ## Characterisation of `compileData` -/

theorem dataSetsProfit_cons (e : String × List Int) (rest : List (String × List Int)) :
    dataSetsProfit (e :: rest) = calculateProfit e.2 + dataSetsProfit rest := by
  rw [dataSetsProfit, dataSetsProfit, List.map_cons, List.sum_cons]

theorem profitsFold_cons (e : String × List Int) (rest : List (String × List Int))
    (m : List (String × Int)) :
    profitsFold (e :: rest) m = profitsFold rest (setEntry m e.1 (calculateProfit e.2)) := rfl

theorem innerUpd_cons (k dk : String) (e : String × List Int)
    (rest : List (String × List Int)) (inn : List (String × Int)) :
    innerUpd k dk (e :: rest) inn =
      innerUpd k dk rest
        (if e.1 = dk then setEntry inn k (calculateProfit e.2) else inn) := rfl

theorem except_bind_ok {ε α β : Type} (a : α) (f : α → Except ε β) :
    (Except.ok (ε := ε) a >>= f) = f a := rfl

theorem compileStep_eval {k : String} {t : Ticker} {ds : Datastore}
    {e : String × List Int} {s : String} {sec : Sector} {inner : List (String × Int)}
    (hts : t.sector = some s) (hsec : lookupE ds.sectors s = some sec)
    (hi : lookupE ds.dataSetProfits e.1 = some inner) :
    compileStep k (t, ds) e = Except.ok
      ({ t with profits := setEntry t.profits e.1 (calculateProfit e.2),
                totalProfits := t.totalProfits + calculateProfit e.2 },
       { ds with
          sectors := setEntry ds.sectors s (sec.addProfit (calculateProfit e.2)),
          dataSetProfits := setEntry ds.dataSetProfits e.1
            (setEntry inner k (calculateProfit e.2)) }) := by
  simp only [compileStep, hts, hsec, hi]

theorem compile_inner (k : String) {s : String} :
    ∀ (L : List (String × List Int)) (t : Ticker) (ds : Datastore) (sec : Sector),
      t.sector = some s →
      lookupE ds.sectors s = some sec →
      (∀ e ∈ L, (lookupE ds.dataSetProfits e.1).isSome = true) →
      ∃ t' ds',
        L.foldlM (compileStep k) (t, ds) = Except.ok (t', ds') ∧
        t' = { t with totalProfits := t.totalProfits + dataSetsProfit L,
                      profits := profitsFold L t.profits } ∧
        ds'.tickers = ds.tickers ∧
        ds'.dataSetNames = ds.dataSetNames ∧
        keysOf ds'.sectors = keysOf ds.sectors ∧
        lookupE ds'.sectors s = some { sec with profits := sec.profits + dataSetsProfit L } ∧
        (∀ s2, s2 ≠ s → lookupE ds'.sectors s2 = lookupE ds.sectors s2) ∧
        keysOf ds'.dataSetProfits = keysOf ds.dataSetProfits ∧
        (∀ dk inner, lookupE ds.dataSetProfits dk = some inner →
          lookupE ds'.dataSetProfits dk = some (innerUpd k dk L inner)) := by
  intro L
  induction L with
  | nil =>
    intro t ds sec hts hsec _
    refine ⟨t, ds, rfl, ?_, rfl, rfl, rfl, ?_, fun s2 _ => rfl, rfl, fun dk inner h => h⟩
    · simp [dataSetsProfit, profitsFold]
    · rw [hsec]
      have : { sec with profits := sec.profits + dataSetsProfit [] } = sec := by
        simp [dataSetsProfit]
      rw [this]
  | cons e rest ih =>
    intro t ds sec hts hsec hkeys
    have hiS : (lookupE ds.dataSetProfits e.1).isSome = true :=
      hkeys e (List.mem_cons_self e rest)
    rcases hi : lookupE ds.dataSetProfits e.1 with _ | inner0
    · rw [hi] at hiS
      cases hiS
    have hmemS : s ∈ keysOf ds.sectors := lookupE_isSome.mp (by rw [hsec]; rfl)
    have hmemD : e.1 ∈ keysOf ds.dataSetProfits := lookupE_isSome.mp (by rw [hi]; rfl)
    set p := calculateProfit e.2 with hp
    set t2 : Ticker :=
      { t with profits := setEntry t.profits e.1 p, totalProfits := t.totalProfits + p }
      with ht2
    set ds2 : Datastore :=
      { ds with
          sectors := setEntry ds.sectors s (sec.addProfit p),
          dataSetProfits := setEntry ds.dataSetProfits e.1 (setEntry inner0 k p) }
      with hds2
    have hts2 : t2.sector = some s := hts
    have hsec2 : lookupE ds2.sectors s = some (sec.addProfit p) :=
      lookupE_setEntry_self _ _ _
    have hdkeys2 : keysOf ds2.dataSetProfits = keysOf ds.dataSetProfits :=
      keysOf_setEntry_mem _ hmemD
    have hkeys2 : ∀ e2 ∈ rest, (lookupE ds2.dataSetProfits e2.1).isSome = true := by
      intro e2 he2
      rw [lookupE_isSome, hdkeys2, ← lookupE_isSome]
      exact hkeys e2 (List.mem_cons_of_mem e he2)
    obtain ⟨t', ds', hfold, ht', htick, hnames, hskeys, hslook, hsother, hdkeys, hdlook⟩ :=
      ih t2 ds2 (sec.addProfit p) hts2 hsec2 hkeys2
    refine ⟨t', ds', ?_, ?_, ?_, ?_, ?_, ?_, ?_, ?_, ?_⟩
    · rw [List.foldlM_cons, compileStep_eval hts hsec hi, except_bind_ok]
      exact hfold
    · rw [ht']
      simp only [ht2, dataSetsProfit_cons, profitsFold_cons, add_assoc]
    · rw [htick, hds2]
    · rw [hnames, hds2]
    · rw [hskeys, hds2]
      exact keysOf_setEntry_mem _ hmemS
    · rw [hslook]
      simp only [Sector.addProfit, dataSetsProfit_cons, add_assoc]
    · intro s2 hs2
      rw [hsother s2 hs2, hds2]
      exact lookupE_setEntry_ne _ hs2 _
    · rw [hdkeys, hdkeys2]
    · intro dk inner hin
      rw [innerUpd_cons]
      by_cases he : e.1 = dk
      · have hinner : inner = inner0 := by
          rw [he] at hi
          rw [hi] at hin
          injection hin.symm
        have hlook2 : lookupE ds2.dataSetProfits dk = some (setEntry inner0 k p) := by
          rw [hds2, ← he]
          exact lookupE_setEntry_self _ _ _
        have := hdlook dk (setEntry inner0 k p) hlook2
        rw [this, if_pos he, hinner]
      · have hne : dk ≠ e.1 := fun hc => he hc.symm
        have hlook2 : lookupE ds2.dataSetProfits dk = some inner := by
          rw [hds2]
          rw [lookupE_setEntry_ne _ hne]
          exact hin
        have := hdlook dk inner hlook2
        rw [this, if_neg he]

theorem sectorContrib_cons (kt : String × Ticker) (rest : List (String × Ticker))
    (s : String) :
    sectorContrib (kt :: rest) s =
      (if kt.2.sector = some s then dataSetsProfit kt.2.dataSets else 0) +
        sectorContrib rest s := by
  rw [sectorContrib, sectorContrib, List.map_cons, List.sum_cons]

theorem dspFold_cons (kt : String × Ticker) (rest : List (String × Ticker))
    (dk : String) (inn : List (String × Int)) :
    dspFold (kt :: rest) dk inn = dspFold rest dk (innerUpd kt.1 dk kt.2.dataSets inn) := rfl

theorem transformTicker_no_data {t : Ticker} (h : t.dataSets = []) :
    transformTicker t = t := by
  have h1 : dataSetsProfit t.dataSets = 0 := by rw [h]; rfl
  have h2 : profitsFold t.dataSets t.profits = t.profits := by rw [h]; rfl
  rw [transformTicker, h1, h2, add_zero]

theorem tickerOk_of_keys {ds ds' : Datastore} (h : keysOf ds'.sectors = keysOf ds.sectors)
    {kt : String × Ticker} (hok : tickerOk ds kt = true) : tickerOk ds' kt = true := by
  rcases hsec : kt.2.sector with _ | s2
  · simp only [tickerOk, hsec] at hok ⊢
    exact hok
  · simp only [tickerOk, hsec] at hok ⊢
    rw [lookupE_isSome, h, ← lookupE_isSome]
    exact hok

theorem compileTicker_eval {ds : Datastore} {kt : String × Ticker} {t' : Ticker}
    {ds1 : Datastore}
    (h : kt.2.dataSets.foldlM (compileStep kt.1) (kt.2, ds) = Except.ok (t', ds1)) :
    compileTicker ds kt = Except.ok { ds1 with tickers := setEntry ds1.tickers kt.1 t' } := by
  simp only [compileTicker, h, except_bind_ok]

theorem compile_outer :
    ∀ (L : List (String × Ticker)) (ds : Datastore),
      (∀ kt ∈ L, ∀ e ∈ kt.2.dataSets, (lookupE ds.dataSetProfits e.1).isSome = true) →
      (∀ kt ∈ L, tickerOk ds kt = true) →
      ∃ ds',
        L.foldlM compileTicker ds = Except.ok ds' ∧
        ds'.tickers =
          L.foldl (fun ts kt => setEntry ts kt.1 (transformTicker kt.2)) ds.tickers ∧
        ds'.dataSetNames = ds.dataSetNames ∧
        keysOf ds'.sectors = keysOf ds.sectors ∧
        (∀ s sec, lookupE ds.sectors s = some sec →
          lookupE ds'.sectors s =
            some { sec with profits := sec.profits + sectorContrib L s }) ∧
        keysOf ds'.dataSetProfits = keysOf ds.dataSetProfits ∧
        (∀ dk inner, lookupE ds.dataSetProfits dk = some inner →
          lookupE ds'.dataSetProfits dk = some (dspFold L dk inner)) := by
  intro L
  induction L with
  | nil =>
    intro ds _ _
    refine ⟨ds, rfl, rfl, rfl, rfl, fun s sec h => ?_, rfl, fun dk inner h => h⟩
    rw [h]
    have : { sec with profits := sec.profits + sectorContrib [] s } = sec := by
      simp [sectorContrib]
    rw [this]
  | cons kt rest ih =>
    intro ds hkeys hok
    have hokkt : tickerOk ds kt = true := hok kt (List.mem_cons_self kt rest)
    rcases hts : kt.2.sector with _ | s
    · -- `None` sector: by `tickerOk` the ticker has no datasets, the inner
      -- loop does nothing and the writeback stores the ticker unchanged.
      have hds : kt.2.dataSets = [] := by
        simp only [tickerOk, hts, List.isEmpty_iff] at hokkt
        exact hokkt
      have hfold : kt.2.dataSets.foldlM (compileStep kt.1) (kt.2, ds) =
          Except.ok (kt.2, ds) := by
        rw [hds]
        rfl
      set ds2 : Datastore := { ds with tickers := setEntry ds.tickers kt.1 kt.2 } with hds2
      have hkeys2 : ∀ kt2 ∈ rest, ∀ e ∈ kt2.2.dataSets,
          (lookupE ds2.dataSetProfits e.1).isSome = true :=
        fun kt2 h2 e he => hkeys kt2 (List.mem_cons_of_mem kt h2) e he
      have hok2 : ∀ kt2 ∈ rest, tickerOk ds2 kt2 = true :=
        fun kt2 h2 => tickerOk_of_keys rfl (hok kt2 (List.mem_cons_of_mem kt h2))
      obtain ⟨ds', hfold', htick, hnames, hskeys, hslook, hdkeys, hdlook⟩ :=
        ih ds2 hkeys2 hok2
      refine ⟨ds', ?_, ?_, ?_, ?_, ?_, ?_, ?_⟩
      · rw [List.foldlM_cons, compileTicker_eval hfold, except_bind_ok]
        exact hfold'
      · rw [htick, List.foldl_cons, transformTicker_no_data hds]
      · exact hnames
      · exact hskeys
      · intro s0 sec0 h0
        have h2 : lookupE ds2.sectors s0 = some sec0 := h0
        rw [hslook s0 sec0 h2, sectorContrib_cons, hts]
        simp
      · exact hdkeys
      · intro dk inner hin
        have h2 : lookupE ds2.dataSetProfits dk = some inner := hin
        rw [dspFold_cons, hds]
        exact hdlook dk inner h2
    · -- a real sector: resolve the `Sector` object and use `compile_inner`.
      have hsecS : (lookupE ds.sectors s).isSome = true := by
        simp only [tickerOk, hts] at hokkt
        exact hokkt
      rcases hsec : lookupE ds.sectors s with _ | sec
      · rw [hsec] at hsecS
        cases hsecS
      obtain ⟨t', ds1, hfold, ht', htick, hnames, hskeys, hslook, hsother, hdkeys, hdlook⟩ :=
        compile_inner kt.1 kt.2.dataSets kt.2 ds sec hts hsec
          (fun e he => hkeys kt (List.mem_cons_self kt rest) e he)
      set ds2 : Datastore := { ds1 with tickers := setEntry ds1.tickers kt.1 t' } with hds2
      have hskeys2 : keysOf ds2.sectors = keysOf ds.sectors := hskeys
      have hdkeys2 : keysOf ds2.dataSetProfits = keysOf ds.dataSetProfits := hdkeys
      have hkeys2 : ∀ kt2 ∈ rest, ∀ e ∈ kt2.2.dataSets,
          (lookupE ds2.dataSetProfits e.1).isSome = true := by
        intro kt2 h2 e he
        rw [lookupE_isSome, hdkeys2, ← lookupE_isSome]
        exact hkeys kt2 (List.mem_cons_of_mem kt h2) e he
      have hok2 : ∀ kt2 ∈ rest, tickerOk ds2 kt2 = true :=
        fun kt2 h2 => tickerOk_of_keys hskeys2 (hok kt2 (List.mem_cons_of_mem kt h2))
      obtain ⟨ds', hfold', htick', hnames', hskeys', hslook', hdkeys', hdlook'⟩ :=
        ih ds2 hkeys2 hok2
      have htick2 : ds2.tickers = setEntry ds.tickers kt.1 (transformTicker kt.2) := by
        simp only [hds2]
        rw [htick, ht']
        rfl
      refine ⟨ds', ?_, ?_, ?_, ?_, ?_, ?_, ?_⟩
      · rw [List.foldlM_cons, compileTicker_eval hfold, except_bind_ok]
        exact hfold'
      · rw [htick', List.foldl_cons, htick2]
      · rw [hnames']
        exact hnames
      · rw [hskeys']
        exact hskeys
      · intro s0 sec0 h0
        by_cases hss : s0 = s
        · have h0s : lookupE ds.sectors s = some sec0 := hss ▸ h0
          rw [hsec] at h0s
          injection h0s with he
          have h1 : lookupE ds2.sectors s0 =
              some { sec0 with profits := sec0.profits + dataSetsProfit kt.2.dataSets } := by
            rw [hss, ← he]
            exact hslook
          rw [hslook' s0 _ h1, sectorContrib_cons, hts, hss]
          simp [add_assoc]
        · have h1 : lookupE ds2.sectors s0 = some sec0 := (hsother s0 hss).trans h0
          rw [hslook' s0 sec0 h1, sectorContrib_cons, hts]
          simp [Ne.symm hss]
      · rw [hdkeys']
        exact hdkeys
      · intro dk inner hin
        have h1 : lookupE ds2.dataSetProfits dk =
            some (innerUpd kt.1 dk kt.2.dataSets inner) := hdlook dk inner hin
        rw [hdlook' dk _ h1, dspFold_cons]

theorem transformTicker_sector (t : Ticker) : (transformTicker t).sector = t.sector := rfl

theorem transformTicker_dataSets (t : Ticker) :
    (transformTicker t).dataSets = t.dataSets := rfl

theorem transformTicker_totalProfits (t : Ticker) :
    (transformTicker t).totalProfits = t.totalProfits + dataSetsProfit t.dataSets := rfl

theorem transformTicker_profits (t : Ticker) :
    (transformTicker t).profits = profitsFold t.dataSets t.profits := rfl

/-- One run of `compileData` on a freshly loaded state succeeds and
transforms every component as described. -/
theorem compileData_fresh {ds : Datastore} (h : FreshlyLoaded ds) :
    ∃ ds', ds.compileData = Except.ok ds' ∧
      ds'.tickers = ds.tickers.map (fun kt => (kt.1, transformTicker kt.2)) ∧
      ds'.dataSetNames = ds.dataSetNames ∧
      keysOf ds'.sectors = keysOf ds.sectors ∧
      (∀ s sec, lookupE ds.sectors s = some sec →
        lookupE ds'.sectors s =
          some { sec with profits := sec.profits + sectorContrib ds.tickers s }) ∧
      keysOf ds'.dataSetProfits = keysOf ds.dataSetProfits ∧
      (∀ dk inner, lookupE ds.dataSetProfits dk = some inner →
        lookupE ds'.dataSetProfits dk = some (dspFold ds.tickers dk inner)) := by
  obtain ⟨hnt, hns, hnd, hdsn, htp, hpr, hto, hdk, hsp, hdi⟩ := h
  obtain ⟨ds', hfold, htick, hnames, hskeys, hslook, hdkeys, hdlook⟩ :=
    compile_outer ds.tickers ds hdk hto
  refine ⟨ds', hfold, ?_, hnames, hskeys, hslook, hdkeys, hdlook⟩
  rw [htick]
  exact foldl_setEntry_self _ ds.tickers hnt

/-- C5: after one `compileData` run on a freshly loaded state, every
ticker's `totalProfits` equals the sum of its stored per-dataset profits. -/
theorem totalProfits_eq_sum_profits (ds : Datastore) (h : FreshlyLoaded ds) :
    ∃ ds', ds.compileData = Except.ok ds' ∧
      ∀ kt ∈ ds'.tickers, kt.2.totalProfits = (kt.2.profits.map Prod.snd).sum := by
  obtain ⟨ds', hok, htick, -, -, -, -, -⟩ := compileData_fresh h
  refine ⟨ds', hok, ?_⟩
  intro kt hkt
  rw [htick] at hkt
  obtain ⟨kt0, hkt0, hmap⟩ := List.mem_map.mp hkt
  rw [← hmap]
  simp only [transformTicker_totalProfits, transformTicker_profits]
  rw [h.2.2.2.2.2.1 kt0 hkt0, profitsFold_nil_eq_map (h.2.2.2.1 kt0 hkt0),
    h.2.2.2.2.1 kt0 hkt0, zero_add, List.map_map, dataSetsProfit]
  rfl

/-- Witness for C5 at the concrete loaded example state. -/
theorem totalProfits_eq_sum_profits_witness :
    ∃ ds', exState.compileData = Except.ok ds' ∧
      ∀ kt ∈ ds'.tickers, kt.2.totalProfits = (kt.2.profits.map Prod.snd).sum :=
  totalProfits_eq_sum_profits exState (by decide)

theorem sectorContrib_map (T : List (String × Ticker)) (s : String) :
    sectorContrib (T.map (fun kt => (kt.1, transformTicker kt.2))) s =
      sectorContrib T s := by
  rw [sectorContrib, sectorContrib, List.map_map]
  rfl

theorem contrib_eq_sum_totals {T : List (String × Ticker)}
    (h0 : ∀ kt ∈ T, kt.2.totalProfits = 0) (s : String) :
    (((T.map (fun kt => (kt.1, transformTicker kt.2))).filter
        (fun kt => kt.2.sector == some s)).map (fun kt => kt.2.totalProfits)).sum =
      sectorContrib T s := by
  induction T with
  | nil => rfl
  | cons kt rest ih =>
    have ihr := ih (fun kt2 h2 => h0 kt2 (List.mem_cons_of_mem kt h2))
    rw [List.map_cons, List.filter_cons, sectorContrib_cons]
    by_cases hc : kt.2.sector = some s
    · rw [if_pos (by simp [transformTicker_sector, hc]), List.map_cons, List.sum_cons,
        ihr, transformTicker_totalProfits, h0 kt (List.mem_cons_self kt rest), zero_add,
        if_pos hc]
    · rw [if_neg (by simp [transformTicker_sector, hc]), ihr, if_neg hc, zero_add]

/-- C6: after one `compileData` run on a freshly loaded state in which
every ticker has a sector, every sector's accumulated profit equals the
sum of `totalProfits` over the tickers mapped to it. -/
theorem sector_profits_eq_sum_tickers (ds : Datastore) (h : FreshlyLoaded ds)
    (_hs : ∀ kt ∈ ds.tickers, kt.2.sector.isSome = true) :
    ∃ ds', ds.compileData = Except.ok ds' ∧
      ∀ ks ∈ ds'.sectors, ks.2.profits =
        (((ds'.tickers.filter (fun kt => kt.2.sector == some ks.1)).map
          (fun kt => kt.2.totalProfits)).sum) := by
  obtain ⟨ds', hok, htick, -, hskeys, hslook, -, -⟩ := compileData_fresh h
  refine ⟨ds', hok, ?_⟩
  intro ks hks
  have hmemk : ks.1 ∈ keysOf ds.sectors := by
    rw [← hskeys]
    exact List.mem_map.mpr ⟨ks, hks, rfl⟩
  obtain ⟨sec0, hsec0⟩ := Option.isSome_iff_exists.mp (lookupE_isSome.mpr hmemk)
  have hlook' : lookupE ds'.sectors ks.1 =
      some { sec0 with profits := sec0.profits + sectorContrib ds.tickers ks.1 } :=
    hslook ks.1 sec0 hsec0
  have hks2 : lookupE ds'.sectors ks.1 = some ks.2 := by
    refine lookupE_of_mem_nodup ?_ hks
    rw [hskeys]
    exact h.2.1
  rw [hks2] at hlook'
  injection hlook' with he
  rw [he]
  have hzero : sec0.profits = 0 := h.2.2.2.2.2.2.2.2.1 (ks.1, sec0) (lookupE_mem hsec0)
  rw [htick, contrib_eq_sum_totals h.2.2.2.2.1 ks.1]
  simp [hzero]

/-- Witness for C6 at the concrete loaded example state. -/
theorem sector_profits_eq_sum_tickers_witness :
    ∃ ds', exState.compileData = Except.ok ds' ∧
      ∀ ks ∈ ds'.sectors, ks.2.profits =
        (((ds'.tickers.filter (fun kt => kt.2.sector == some ks.1)).map
          (fun kt => kt.2.totalProfits)).sum) :=
  sector_profits_eq_sum_tickers exState (by decide) (by decide)

theorem transformTicker_twice {t0 : Ticker} (hpr0 : t0.profits = [])
    (htp0 : t0.totalProfits = 0) (hnd0 : (keysOf t0.dataSets).Nodup) :
    (transformTicker (transformTicker t0)).profits = (transformTicker t0).profits ∧
    (transformTicker (transformTicker t0)).totalProfits =
      2 * (transformTicker t0).totalProfits := by
  constructor
  · rw [transformTicker_profits, transformTicker_dataSets, transformTicker_profits, hpr0,
      profitsFold_nil_eq_map hnd0]
    refine profitsFold_id _ ?_ ?_
    · rw [keysOf_map_pair]
      exact hnd0
    · intro e he
      exact lookupE_map_pair hnd0 he _
  · rw [transformTicker_totalProfits, transformTicker_dataSets,
      transformTicker_totalProfits, htp0, zero_add, two_mul]

/-- C4 counterexample: `compileData` is not idempotent.  On the loaded
example state the first run gives ticker `AAA` a total profit of 4, and a
second run on the resulting state accumulates again, giving 8. -/
theorem compileData_not_idempotent_cex :
    (exState.compileData.map
      (fun d => (lookupE d.tickers "AAA").map Ticker.totalProfits)) =
        Except.ok (some 4) ∧
    ((exState.compileData.bind Datastore.compileData).map
      (fun d => (lookupE d.tickers "AAA").map Ticker.totalProfits)) =
        Except.ok (some 8) := by
  constructor <;> rfl

/-- C4 amended: re-running `compileData` on the state produced by a first
run succeeds and leaves the dataset profit table and every ticker's
per-dataset profit dict unchanged, but accumulates every ticker's
`totalProfits` and every sector's profit a second time, doubling them. -/
theorem compileData_second_run (ds : Datastore) (h : FreshlyLoaded ds) :
    ∃ ds1 ds2, ds.compileData = Except.ok ds1 ∧ ds1.compileData = Except.ok ds2 ∧
      ds2.dataSetProfits = ds1.dataSetProfits ∧
      (∀ k t1, lookupE ds1.tickers k = some t1 →
        ∃ t2, lookupE ds2.tickers k = some t2 ∧
          t2.profits = t1.profits ∧ t2.totalProfits = 2 * t1.totalProfits) ∧
      (∀ s sec1, lookupE ds1.sectors s = some sec1 →
        lookupE ds2.sectors s = some { sec1 with profits := 2 * sec1.profits }) := by
  obtain ⟨ds1, hok1, htick1, hnames1, hskeys1, hslook1, hdkeys1, hdlook1⟩ :=
    compileData_fresh h
  obtain ⟨hnt, hns, hnd, hdsn, htp, hpr, hto, hdk, hsp, hdi⟩ := h
  have hnt1 : (keysOf ds1.tickers).Nodup := by
    rw [htick1, keysOf_map_pair]
    exact hnt
  have hkeys1 : ∀ kt ∈ ds1.tickers, ∀ e ∈ kt.2.dataSets,
      (lookupE ds1.dataSetProfits e.1).isSome = true := by
    intro kt hkt e he
    rw [htick1] at hkt
    obtain ⟨kt0, hkt0, hmap⟩ := List.mem_map.mp hkt
    rw [lookupE_isSome, hdkeys1, ← lookupE_isSome]
    refine hdk kt0 hkt0 e ?_
    rw [← hmap] at he
    exact he
  have hok1' : ∀ kt ∈ ds1.tickers, tickerOk ds1 kt = true := by
    intro kt hkt
    rw [htick1] at hkt
    obtain ⟨kt0, hkt0, hmap⟩ := List.mem_map.mp hkt
    have hok0 := hto kt0 hkt0
    rw [← hmap]
    rcases hsec : kt0.2.sector with _ | s
    · simp only [tickerOk, transformTicker_sector, transformTicker_dataSets, hsec] at hok0 ⊢
      exact hok0
    · simp only [tickerOk, transformTicker_sector, hsec] at hok0 ⊢
      rw [lookupE_isSome, hskeys1, ← lookupE_isSome]
      exact hok0
  obtain ⟨ds2, hok2, htick2, hnames2, hskeys2, hslook2, hdkeys2, hdlook2⟩ :=
    compile_outer ds1.tickers ds1 hkeys1 hok1'
  have htick2m : ds2.tickers = ds1.tickers.map (fun kt => (kt.1, transformTicker kt.2)) := by
    rw [htick2]
    exact foldl_setEntry_self _ ds1.tickers hnt1
  refine ⟨ds1, ds2, hok1, hok2, ?_, ?_, ?_⟩
  · -- the dataset profit table is unchanged by the second run
    refine assoc_ext hdkeys2 (by rw [hdkeys2, hdkeys1]; exact hnd) ?_
    intro dk
    rcases hdk1 : lookupE ds1.dataSetProfits dk with _ | inner1
    · rw [lookupE_eq_none, hdkeys2]
      exact lookupE_eq_none.mp hdk1
    · rw [hdlook2 dk inner1 hdk1]
      have hmem1 : dk ∈ keysOf ds.dataSetProfits := by
        rw [← hdkeys1, ← lookupE_isSome, hdk1]
        rfl
      obtain ⟨inner0, hinner0⟩ := Option.isSome_iff_exists.mp (lookupE_isSome.mpr hmem1)
      have h0 : inner0 = [] := hdi (dk, inner0) (lookupE_mem hinner0)
      have hinner1 : inner1 = dspFold ds.tickers dk inner0 := by
        have := hdlook1 dk inner0 hinner0
        rw [hdk1] at this
        injection this
      have hinner1' : inner1 = dspFold ds.tickers dk [] := by rw [hinner1, h0]
      have hfix : dspFold ds1.tickers dk inner1 = inner1 := by
        refine dspFold_id ?_ ?_ ?_
        · rw [hinner1']
          exact nodup_dspFold _ (by simp [keysOf])
        · intro kt hkt
          rw [htick1] at hkt
          obtain ⟨kt0, hkt0, hmap⟩ := List.mem_map.mp hkt
          rw [← hmap, transformTicker_dataSets]
          exact hdsn kt0 hkt0
        · intro kt hkt d hd
          rw [htick1] at hkt
          obtain ⟨kt0, hkt0, hmap⟩ := List.mem_map.mp hkt
          rw [← hmap] at hd ⊢
          rw [hinner1']
          exact lookupE_dspFold [] hnt hdsn kt0 hkt0 d hd
      rw [hfix]
  · -- tickers: per-dataset profit dicts unchanged, totals doubled
    intro k t1 hl1
    have hmem1 : (k, t1) ∈ ds1.tickers := lookupE_mem hl1
    have hl2 : lookupE ds2.tickers k = some (transformTicker t1) := by
      rw [htick2m]
      exact lookupE_map_pair hnt1 hmem1 _
    rw [htick1] at hmem1
    obtain ⟨kt0, hkt0, hmap⟩ := List.mem_map.mp hmem1
    have ht1 : t1 = transformTicker kt0.2 := by
      have := congrArg Prod.snd hmap
      exact this.symm
    obtain ⟨hp2, ht2⟩ :=
      transformTicker_twice (hpr kt0 hkt0) (htp kt0 hkt0) (hdsn kt0 hkt0)
    refine ⟨transformTicker t1, hl2, ?_, ?_⟩
    · rw [ht1]
      exact hp2
    · rw [ht1]
      exact ht2
  · -- sectors: accumulated a second time, doubling the first-run totals
    intro s sec1 hl1
    have hmem1 : s ∈ keysOf ds.sectors := by
      rw [← hskeys1, ← lookupE_isSome, hl1]
      rfl
    obtain ⟨sec0, hsec0⟩ := Option.isSome_iff_exists.mp (lookupE_isSome.mpr hmem1)
    have hzero : sec0.profits = 0 := hsp (s, sec0) (lookupE_mem hsec0)
    have hsec1 : sec1 = { sec0 with profits := sec0.profits + sectorContrib ds.tickers s } := by
      have := hslook1 s sec0 hsec0
      rw [hl1] at this
      injection this
    have hcontrib : sectorContrib ds1.tickers s = sec1.profits := by
      rw [htick1, sectorContrib_map, hsec1, hzero, zero_add]
    rw [hslook2 s sec1 hl1, hcontrib, two_mul]

/-- Witness for C4's amended statement at the concrete loaded example. -/
theorem compileData_second_run_witness :
    ∃ ds1 ds2, exState.compileData = Except.ok ds1 ∧ ds1.compileData = Except.ok ds2 ∧
      ds2.dataSetProfits = ds1.dataSetProfits ∧
      (∀ k t1, lookupE ds1.tickers k = some t1 →
        ∃ t2, lookupE ds2.tickers k = some t2 ∧
          t2.profits = t1.profits ∧ t2.totalProfits = 2 * t1.totalProfits) ∧
      (∀ s sec1, lookupE ds1.sectors s = some sec1 →
        lookupE ds2.sectors s = some { sec1 with profits := 2 * sec1.profits }) :=
  compileData_second_run exState (by decide)

/-- C2 (code-bug evidence): on a state containing a ticker whose sector is
unset (`None`) and which owns a price sequence (registered through the
public `addDataSet` operation), `compileData` raises `AttributeError` at
the unconditional `tickerObj.sector.addProfit(maxProfit)` call (line 135)
instead of skipping the sector update as the spec describes. -/
theorem compileData_crashes_on_unset_sector :
    (∃ kt ∈ c2State.tickers, kt.2.sector = none ∧ kt.2.dataSets ≠ []) ∧
    c2State.compileData = Except.error "AttributeError" :=
  ⟨by decide, rfl⟩

/-- C3 (code-bug evidence): processing a data row whose ticker is unknown
creates the ticker with no sector but never attaches the parsed price
sequence: the new ticker's dataset dict stays empty. -/
theorem processDataRow_drops_prices :
    lookupE ((Datastore.empty.initDataSet "day1.csv").processDataRow "day1.csv"
        "XYZ" [1, 5]).tickers "XYZ" =
      some { name := "XYZ", sector := none, totalProfits := 0,
             profits := [], dataSets := [] } ∧
    ((lookupE ((Datastore.empty.initDataSet "day1.csv").processDataRow "day1.csv"
        "XYZ" [1, 5]).tickers "XYZ").map
      (fun t => lookupE t.dataSets "day1.csv")) = some none := by
  constructor <;> rfl

theorem maxTotal_eq (ds : Datastore) :
    ds.maximumTotalTickerProfit =
      (ds.tickers.map (fun kt => kt.2.totalProfits)).foldl max 0 := by
  rw [Datastore.maximumTotalTickerProfit, ← foldl_max_flip, List.foldl_map]

/-- C7: the best-performing-ticker result collects exactly the tickers
whose `totalProfits` equals the reported maximum, which bounds every
ticker's total, is non-negative, and is attained by some ticker unless it
is the floor 0; a ticker with a negative total never appears, and an
empty ticker dict yields an empty result. -/
theorem bestPerformingTickers_correct (ds : Datastore)
    (hn : (keysOf ds.tickers).Nodup) :
    0 ≤ ds.maximumTotalTickerProfit ∧
    (∀ kt ∈ ds.tickers, kt.2.totalProfits ≤ ds.maximumTotalTickerProfit) ∧
    (ds.maximumTotalTickerProfit = 0 ∨
      ∃ kt ∈ ds.tickers, kt.2.totalProfits = ds.maximumTotalTickerProfit) ∧
    (∀ k, k ∈ ds.bestPerformingTickers ↔
      ∃ t, (k, t) ∈ ds.tickers ∧ t.totalProfits = ds.maximumTotalTickerProfit) ∧
    (∀ kt ∈ ds.tickers, kt.2.totalProfits < 0 → kt.1 ∉ ds.bestPerformingTickers) ∧
    (ds.tickers = [] → ds.bestPerformingTickers = []) := by
  have hmem : ∀ k, k ∈ ds.bestPerformingTickers ↔
      ∃ t, (k, t) ∈ ds.tickers ∧ t.totalProfits = ds.maximumTotalTickerProfit := by
    intro k
    rw [Datastore.bestPerformingTickers]
    constructor
    · intro hk
      obtain ⟨kt, hkt, hk1⟩ := List.mem_map.mp hk
      obtain ⟨hktm, hpr⟩ := List.mem_filter.mp hkt
      refine ⟨kt.2, ?_, by simpa using hpr⟩
      rw [← hk1]
      exact hktm
    · rintro ⟨t, hmem, hval⟩
      refine List.mem_map.mpr ⟨(k, t), List.mem_filter.mpr ⟨hmem, by simpa using hval⟩, rfl⟩
  refine ⟨?_, ?_, ?_, hmem, ?_, ?_⟩
  · rw [maxTotal_eq]
    exact le_foldl_max _ 0
  · intro kt hkt
    rw [maxTotal_eq]
    exact mem_le_foldl_max 0 (List.mem_map.mpr ⟨kt, hkt, rfl⟩)
  · rw [maxTotal_eq]
    rcases foldl_max_eq_or_mem (ds.tickers.map (fun kt => kt.2.totalProfits)) 0 with h0 | hm
    · exact Or.inl h0
    · obtain ⟨kt, hkt, hval⟩ := List.mem_map.mp hm
      exact Or.inr ⟨kt, hkt, hval⟩
  · intro kt hkt hneg hbest
    obtain ⟨t, hmem, hval⟩ := (hmem kt.1).mp hbest
    have h1 : lookupE ds.tickers kt.1 = some t := lookupE_of_mem_nodup hn hmem
    have h2 : lookupE ds.tickers kt.1 = some kt.2 := by
      refine lookupE_of_mem_nodup hn ?_
      obtain ⟨a, b⟩ := kt
      exact hkt
    rw [h1] at h2
    injection h2 with he
    have hM : 0 ≤ ds.maximumTotalTickerProfit := by
      rw [maxTotal_eq]
      exact le_foldl_max _ 0
    rw [← he, hval] at hneg
    omega
  · intro he
    rw [Datastore.bestPerformingTickers, he]
    rfl

/-- Witness for C7 at the compiled example state. -/
theorem bestPerformingTickers_correct_witness :
    0 ≤ exCompiled.maximumTotalTickerProfit ∧
    (∀ kt ∈ exCompiled.tickers, kt.2.totalProfits ≤ exCompiled.maximumTotalTickerProfit) ∧
    (exCompiled.maximumTotalTickerProfit = 0 ∨
      ∃ kt ∈ exCompiled.tickers,
        kt.2.totalProfits = exCompiled.maximumTotalTickerProfit) ∧
    (∀ k, k ∈ exCompiled.bestPerformingTickers ↔
      ∃ t, (k, t) ∈ exCompiled.tickers ∧
        t.totalProfits = exCompiled.maximumTotalTickerProfit) ∧
    (∀ kt ∈ exCompiled.tickers, kt.2.totalProfits < 0 →
      kt.1 ∉ exCompiled.bestPerformingTickers) ∧
    (exCompiled.tickers = [] → exCompiled.bestPerformingTickers = []) :=
  bestPerformingTickers_correct exCompiled (by decide)

/-- C8 counterexample: after compiling `c8State` (which contains the
unmapped ticker `XYZ`) the export fails (`tickerObj.sector.name` raises on
`None`, caught by the `except` branch, success flag `False`); and after
compiling `misState` (ticker `BBB` missing from the first dataset) the
export succeeds but `BBB`'s row has 4 cells under a 5-cell header, so its
single profit value is not aligned with the dataset columns. -/
theorem export_claim_cex :
    ((c8State.compileData).map (fun c => (c.exportDataToCSV).2)) = Except.ok false ∧
    ((misState.compileData).map (fun c => (c.exportDataToCSV).1.map List.length)) =
      Except.ok [2, 2, 0, 5, 5, 4] := by
  constructor <;> rfl

theorem tickerRowsOut_all_some :
    ∀ T : List (String × Ticker), (∀ kt ∈ T, kt.2.sector.isSome = true) →
      tickerRowsOut T =
        (T.map (fun kt => tickerRow kt.2 (kt.2.sector.getD "")), true) := by
  intro T
  induction T with
  | nil => intro _; rfl
  | cons kt rest ih =>
    intro h
    rcases hsec : kt.2.sector with _ | s
    · have := h kt (List.mem_cons_self kt rest)
      rw [hsec] at this
      cases this
    · rw [tickerRowsOut, hsec, ih (fun kt2 h2 => h kt2 (List.mem_cons_of_mem kt h2)),
        List.map_cons, hsec]
      rfl

theorem map_values_eq_map_keys {m : List (String × Int)} (g : Int → String) :
    (keysOf m).Nodup →
      m.map (fun p => g p.2) = (keysOf m).map (fun k2 => g ((lookupE m k2).getD 0)) := by
  induction m with
  | nil => intro _; rfl
  | cons p rest ih =>
    intro hn
    rw [keysOf, List.map_cons, List.nodup_cons] at hn
    rw [keysOf, List.map_cons, List.map_cons, List.map_cons, lookupE, if_pos rfl]
    refine congrArg₂ _ rfl ?_
    rw [ih hn.2]
    refine List.map_congr_left ?_
    intro k2 hk2
    have hne : p.1 ≠ k2 := fun he => hn.1 (he ▸ hk2)
    rw [lookupE, if_neg hne]

/-- C8 amended: for any datastore in which every ticker has a sector, the
export succeeds and consists of the sector header, one row per sector, a
blank row, the ticker header carrying the dataset keys in discovery
order, and one row per ticker whose per-dataset profit cells are that
ticker's own `profits` dict values in their insertion order; those cells
coincide with the header's dataset column order exactly when the ticker's
profit keys equal the dataset key list.  (With a `None`-sector ticker the
export fails, and a ticker missing a dataset has a short, shifted row.) -/
theorem export_shape (ds : Datastore)
    (h : ∀ kt ∈ ds.tickers, kt.2.sector.isSome = true) :
    (ds.exportDataToCSV).2 = true ∧
    (ds.exportDataToCSV).1 =
      [["Sector", "Total Profit"]] ++ ds.sectors.map sectorRow ++ [[]] ++
        [["Ticker", "Sector", "Total Profit"] ++ keysOf ds.dataSetProfits] ++
        ds.tickers.map (fun kt => tickerRow kt.2 (kt.2.sector.getD "")) ∧
    (∀ kt ∈ ds.tickers, (keysOf kt.2.profits).Nodup →
      keysOf kt.2.profits = keysOf ds.dataSetProfits →
      kt.2.profits.map (fun p => toString p.2) =
        (keysOf ds.dataSetProfits).map
          (fun dk => toString ((lookupE kt.2.profits dk).getD 0))) := by
  have hrows := tickerRowsOut_all_some ds.tickers h
  refine ⟨?_, ?_, ?_⟩
  · rw [Datastore.exportDataToCSV]
    simp only [hrows]
  · rw [Datastore.exportDataToCSV]
    simp only [hrows]
    rfl
  · intro kt hkt hnp hkeq
    rw [← hkeq]
    exact map_values_eq_map_keys _ hnp

/-- Witness for C8's amended statement at the compiled example state. -/
theorem export_shape_witness :
    (exCompiled.exportDataToCSV).2 = true ∧
    (exCompiled.exportDataToCSV).1 =
      [["Sector", "Total Profit"]] ++ exCompiled.sectors.map sectorRow ++ [[]] ++
        [["Ticker", "Sector", "Total Profit"] ++ keysOf exCompiled.dataSetProfits] ++
        exCompiled.tickers.map (fun kt => tickerRow kt.2 (kt.2.sector.getD "")) ∧
    (∀ kt ∈ exCompiled.tickers, (keysOf kt.2.profits).Nodup →
      keysOf kt.2.profits = keysOf exCompiled.dataSetProfits →
      kt.2.profits.map (fun p => toString p.2) =
        (keysOf exCompiled.dataSetProfits).map
          (fun dk => toString ((lookupE kt.2.profits dk).getD 0))) :=
  export_shape exCompiled (by decide)

/-- C9: `addDataSet` rejects a duplicate dataset key with a warning and no
overwrite, stores a fresh key's price sequence, and preserves key
uniqueness, so a ticker holds at most one price sequence per dataset
key. -/
theorem addDataSet_correct (t : Ticker) (k : String) (v2 : List Int) :
    (∀ v0, lookupE t.dataSets k = some v0 → t.addDataSet k v2 = (t, true)) ∧
    (lookupE t.dataSets k = none →
      (t.addDataSet k v2).2 = false ∧
      (t.addDataSet k v2).1.dataSets = t.dataSets ++ [(k, v2)] ∧
      lookupE (t.addDataSet k v2).1.dataSets k = some v2) ∧
    ((keysOf t.dataSets).Nodup → (keysOf (t.addDataSet k v2).1.dataSets).Nodup) := by
  refine ⟨?_, ?_, ?_⟩
  · intro v0 h
    rw [Ticker.addDataSet, if_pos (by rw [h]; rfl)]
  · intro h
    have hfalse : (lookupE t.dataSets k).isSome = false := by rw [h]; rfl
    rw [Ticker.addDataSet, if_neg (by rw [hfalse]; exact Bool.false_ne_true)]
    refine ⟨rfl, rfl, ?_⟩
    rw [lookupE_append_right (lookupE_eq_none.mp h), lookupE, if_pos rfl]
  · intro hn
    rcases hl : lookupE t.dataSets k with _ | v0
    · have hfalse : (lookupE t.dataSets k).isSome = false := by rw [hl]; rfl
      rw [Ticker.addDataSet, if_neg (by rw [hfalse]; exact Bool.false_ne_true)]
      have : keysOf (t.dataSets ++ [(k, v2)]) = keysOf t.dataSets ++ [k] := by
        rw [keysOf, List.map_append]
        rfl
      rw [this]
      simpa [List.nodup_append] using ⟨hn, fun h2 => (lookupE_eq_none.mp hl) h2⟩
    · rw [Ticker.addDataSet, if_pos (by rw [hl]; rfl)]
      exact hn

/-- Witness for C9: a duplicate key is rejected with a warning and a fresh
key's prices are stored. -/
theorem addDataSet_correct_witness :
    Ticker.addDataSet
        { name := "A", sector := none, totalProfits := 0, profits := [],
          dataSets := [("d", [1])] } "d" [9] =
      ({ name := "A", sector := none, totalProfits := 0, profits := [],
         dataSets := [("d", [1])] }, true) ∧
    lookupE (Ticker.addDataSet
        { name := "A", sector := none, totalProfits := 0, profits := [],
          dataSets := [("d", [1])] } "e" [9]).1.dataSets "e" = some [9] :=
  ⟨(addDataSet_correct _ "d" [9]).1 [1] (by decide),
   ((addDataSet_correct _ "e" [9]).2.1 (by decide)).2.2⟩

theorem processMappingRow_dup_eval {ds : Datastore} {tickerName sectorName : String}
    (ht : (lookupE ds.tickers tickerName).isSome = true)
    (hs : lookupE ds.sectors sectorName = none) :
    ds.processMappingRow tickerName sectorName =
      { ds with sectors := ds.sectors ++
          [(sectorName, { name := sectorName, tickerList := [], profits := 0 })] } := by
  simp [Datastore.processMappingRow, hs, ht]

/-- C10: a mapping row whose ticker name is already known but whose sector
name is new still creates the `Sector` before the duplicate-ticker check,
leaving a sector with an empty roster and profit 0; that sector shows up
in the export's sector section and, whenever the maximum sector profit is
0, in the best-performing-sector result. -/
theorem empty_sector_created (ds : Datastore) (tickerName sectorName : String)
    (ht : (lookupE ds.tickers tickerName).isSome = true)
    (hs : lookupE ds.sectors sectorName = none) :
    (ds.processMappingRow tickerName sectorName).tickers = ds.tickers ∧
    lookupE (ds.processMappingRow tickerName sectorName).sectors sectorName =
      some { name := sectorName, tickerList := [], profits := 0 } ∧
    [sectorName, "0"] ∈ ((ds.processMappingRow tickerName sectorName).exportDataToCSV).1 ∧
    ((ds.processMappingRow tickerName sectorName).maximumSectorProfit = 0 →
      sectorName ∈ (ds.processMappingRow tickerName sectorName).bestPerformingSectors) := by
  rw [processMappingRow_dup_eval ht hs]
  refine ⟨rfl, ?_, ?_, ?_⟩
  · rw [lookupE_append_right (lookupE_eq_none.mp hs), lookupE, if_pos rfl]
  · have hrow : [sectorName, "0"] ∈ sectorRowsOut { ds with sectors := ds.sectors ++
        [(sectorName, { name := sectorName, tickerList := [], profits := 0 })] } := by
      rw [sectorRowsOut]
      exact List.mem_map.mpr
        ⟨(sectorName, { name := sectorName, tickerList := [], profits := 0 }),
         List.mem_append_right _ (List.mem_singleton.mpr rfl), rfl⟩
    simp only [Datastore.exportDataToCSV]
    exact List.mem_append_left _ (List.mem_append_left _ (List.mem_append_left _
      (List.mem_append_right _ hrow)))
  · intro hmax
    rw [Datastore.bestPerformingSectors]
    refine List.mem_map.mpr
      ⟨(sectorName, { name := sectorName, tickerList := [], profits := 0 }),
       List.mem_filter.mpr ⟨List.mem_append_right _ (List.mem_singleton.mpr rfl), ?_⟩, rfl⟩
    rw [hmax]
    rfl

/-- Witness for C10 at a concrete state: the mapping `AAA -> Tech` is
loaded and then a duplicate row `AAA -> Finance` arrives. -/
theorem empty_sector_created_witness :
    ((Datastore.empty.processMappingRow "AAA" "Tech").processMappingRow
        "AAA" "Finance").tickers =
      (Datastore.empty.processMappingRow "AAA" "Tech").tickers ∧
    lookupE ((Datastore.empty.processMappingRow "AAA" "Tech").processMappingRow
        "AAA" "Finance").sectors "Finance" =
      some { name := "Finance", tickerList := [], profits := 0 } ∧
    ["Finance", "0"] ∈ (((Datastore.empty.processMappingRow "AAA" "Tech").processMappingRow
        "AAA" "Finance").exportDataToCSV).1 ∧
    (((Datastore.empty.processMappingRow "AAA" "Tech").processMappingRow
        "AAA" "Finance").maximumSectorProfit = 0 →
      "Finance" ∈ ((Datastore.empty.processMappingRow "AAA" "Tech").processMappingRow
        "AAA" "Finance").bestPerformingSectors) :=
  empty_sector_created (Datastore.empty.processMappingRow "AAA" "Tech") "AAA" "Finance"
    (by decide) (by decide)

end MaximizeProfit
